import Mathlib

/-!
Verification of the debug-overlay renderer (`gl/src/debug.rs`).

The development is a shallow embedding of the pure, algorithmic parts of the
module: the rolling performance-sample buffer (`SampleBuffer`), the bitmap-font
glyph lookup with `'?'` fallback, the text layout / measurement loops of
`DebugUI::draw_text` and `DebugUI::measure_text`, the rect quad batching of
`DebugUI::draw_rect`, and the 16-bit vertex narrowing of
`DebugTextureVertex::new` / `DebugSolidVertex::new`.

Machine integers are embedded as `Int` / `Nat`; the `as i16` / `as u16`
narrowing casts are modelled exactly (two's-complement truncation).  The `f64`
millisecond arithmetic of `SampleBuffer::mean_ms` is modelled over `ℚ` (exact
arithmetic); the concrete values checked below are exactly representable in
`f64` and every operation on them is exact, so the models agree there.
GL draw-call submission, file loading and the GPU handle types are out of
scope (the spec treats them as external collaborators).
-/

set_option maxHeartbeats 1000000

/-- Embedding of `std::time::Duration`: whole seconds plus sub-second
nanoseconds (`as_secs` / `subsec_nanos`). -/
structure Duration where
  secs : Nat
  nanos : Nat
deriving DecidableEq

/-- Embedding of `const SAMPLE_BUFFER_SIZE: usize = 60` (debug.rs line 32). -/
def SAMPLE_BUFFER_SIZE : Nat := 60

/-- Milliseconds of one sample, as accumulated by `SampleBuffer::mean_ms`
(debug.rs line 482): `secs * 1000.0 + subsec_nanos / 1000000.0`, over `ℚ`. -/
def Duration.ms (time : Duration) : ℚ :=
  (time.secs : ℚ) * 1000 + (time.nanos : ℚ) / 1000000

namespace SampleBuffer

/-- Embedding of the `while self.samples.len() > SAMPLE_BUFFER_SIZE
{ self.samples.pop_front(); }` loop of `SampleBuffer::push` (debug.rs lines
470-472).  The `VecDeque` is embedded as a list, front first. -/
def trimFront : List Duration → List Duration
  | [] => []
  | t :: rest =>
    if SAMPLE_BUFFER_SIZE < (t :: rest).length then trimFront rest else t :: rest

/-- Embedding of `SampleBuffer::push` (debug.rs lines 468-473): push to the
back, then pop from the front while the length exceeds the capacity. -/
def push (samples : List Duration) (time : Duration) : List Duration :=
  trimFront (samples ++ [time])

/-- A whole sequence of pushes, oldest first. -/
def pushAll : List Duration → List Duration → List Duration
  | [], samples => samples
  | t :: ts, samples => pushAll ts (push samples t)

/-- Embedding of `SampleBuffer::mean_ms` (debug.rs lines 475-485): `0.0` on an
empty buffer, otherwise the accumulated milliseconds divided by the length. -/
def mean_ms (samples : List Duration) : ℚ :=
  if samples.isEmpty then 0
  else (samples.foldl (fun ms time => ms + time.ms) 0) / (samples.length : ℚ)

theorem trimFront_eq_drop (l : List Duration) :
    trimFront l = l.drop (l.length - SAMPLE_BUFFER_SIZE) := by
  induction l with
  | nil => simp [trimFront]
  | cons t rest ih =>
    simp only [trimFront, List.length_cons]
    by_cases h : SAMPLE_BUFFER_SIZE < rest.length + 1
    · rw [if_pos h, ih]
      have h60 : rest.length + 1 - SAMPLE_BUFFER_SIZE =
          (rest.length - SAMPLE_BUFFER_SIZE) + 1 := by omega
      rw [h60, List.drop_succ_cons]
    · rw [if_neg h]
      have h0 : rest.length + 1 - SAMPLE_BUFFER_SIZE = 0 := by omega
      rw [h0, List.drop_zero]

theorem push_eq_drop (samples : List Duration) (t : Duration) :
    push samples t =
      (samples ++ [t]).drop (samples.length + 1 - SAMPLE_BUFFER_SIZE) := by
  rw [push, trimFront_eq_drop]
  simp

theorem pushAll_eq_drop (ts : List Duration) : ∀ samples : List Duration,
    samples.length ≤ SAMPLE_BUFFER_SIZE →
    pushAll ts samples =
      (samples ++ ts).drop (samples.length + ts.length - SAMPLE_BUFFER_SIZE) := by
  induction ts with
  | nil =>
    intro samples hlen
    have h0 : samples.length - SAMPLE_BUFFER_SIZE = 0 := by omega
    simp [pushAll, h0]
  | cons t ts ih =>
    intro samples hlen
    have hpush : (push samples t).length ≤ SAMPLE_BUFFER_SIZE := by
      rw [push_eq_drop]
      simp only [List.length_drop, List.length_append, List.length_cons,
        List.length_nil]
      omega
    have hstep : pushAll (t :: ts) samples = pushAll ts (push samples t) := rfl
    rw [hstep, ih _ hpush, push_eq_drop]
    have hk : samples.length + 1 - SAMPLE_BUFFER_SIZE ≤ (samples ++ [t]).length := by
      simp only [List.length_append, List.length_cons, List.length_nil]
      omega
    rw [← List.drop_append_of_le_length hk, List.drop_drop]
    have hlist : (samples ++ [t]) ++ ts = samples ++ t :: ts := by
      simp
    rw [hlist]
    congr 1
    simp only [List.length_drop, List.length_append, List.length_cons,
      List.length_nil]
    omega

end SampleBuffer

/-- Helper list of samples accumulated by the `fun ms time => ms + time.ms`
fold of `mean_ms`. -/
theorem foldl_ms_eq_sum (samples : List Duration) : ∀ a : ℚ,
    samples.foldl (fun ms time => ms + time.ms) a =
      a + (samples.map Duration.ms).sum := by
  induction samples with
  | nil => intro a; simp
  | cons t rest ih =>
    intro a
    simp only [List.foldl_cons, List.map_cons, List.sum_cons, ih, add_assoc]

/-- C1: starting from empty, after `SAMPLE_BUFFER_SIZE + k` pushes the buffer
holds exactly the last `SAMPLE_BUFFER_SIZE` pushed samples in push order, and
after any number of pushes the length never exceeds `SAMPLE_BUFFER_SIZE`. -/
theorem sampleBuffer_holds_last_capacity (ts : List Duration) (k : Nat)
    (h : ts.length = SAMPLE_BUFFER_SIZE + k) :
    SampleBuffer.pushAll ts [] = ts.drop k ∧
    ∀ n : Nat,
      (SampleBuffer.pushAll (ts.take n) []).length ≤ SAMPLE_BUFFER_SIZE := by
  constructor
  · rw [SampleBuffer.pushAll_eq_drop ts [] (by simp [SAMPLE_BUFFER_SIZE])]
    simp only [List.nil_append, List.length_nil, Nat.zero_add]
    congr 1
    omega
  · intro n
    rw [SampleBuffer.pushAll_eq_drop _ [] (by simp [SAMPLE_BUFFER_SIZE])]
    simp only [List.nil_append, List.length_nil, Nat.zero_add, List.length_drop]
    omega

/-- Sixty-one distinct samples, a concrete push sequence of length
`SAMPLE_BUFFER_SIZE + 1`. -/
def ts61 : List Duration := (List.range 61).map (fun i => ⟨i, 0⟩)

/-- Witness for C1 at the concrete 61-push sequence `ts61`. -/
theorem sampleBuffer_holds_last_capacity_witness :
    ts61.length = SAMPLE_BUFFER_SIZE + 1 ∧
    (SampleBuffer.pushAll ts61 [] = ts61.drop 1 ∧
     ∀ n : Nat,
       (SampleBuffer.pushAll (ts61.take n) []).length ≤ SAMPLE_BUFFER_SIZE) :=
  ⟨by simp [ts61, SAMPLE_BUFFER_SIZE],
   sampleBuffer_holds_last_capacity ts61 1 (by simp [ts61, SAMPLE_BUFFER_SIZE])⟩

/-- C2: `mean_ms` of the empty buffer is `0`; of a non-empty buffer it is the
arithmetic mean of the samples converted to milliseconds; the mean of the
single sample 1000 ms is 1000 and of the samples 1000 ms and 3000 ms is
2000. -/
theorem mean_ms_spec (buf : List Duration) (h : buf ≠ []) :
    SampleBuffer.mean_ms [] = 0 ∧
    SampleBuffer.mean_ms buf = (buf.map Duration.ms).sum / (buf.length : ℚ) ∧
    SampleBuffer.mean_ms [Duration.mk 1 0] = 1000 ∧
    SampleBuffer.mean_ms [Duration.mk 1 0, Duration.mk 3 0] = 2000 := by
  refine ⟨by simp [SampleBuffer.mean_ms], ?_, ?_, ?_⟩
  · rw [SampleBuffer.mean_ms, if_neg (by simpa using h), foldl_ms_eq_sum]
    simp
  · norm_num [SampleBuffer.mean_ms, Duration.ms]
  · norm_num [SampleBuffer.mean_ms, Duration.ms]

/-- Witness for C2 at the concrete non-empty buffer `[1000 ms]`. -/
theorem mean_ms_spec_witness :
    SampleBuffer.mean_ms [] = 0 ∧
    SampleBuffer.mean_ms [Duration.mk 1 0] =
      (([Duration.mk 1 0] : List Duration).map Duration.ms).sum /
        (([Duration.mk 1 0] : List Duration).length : ℚ) ∧
    SampleBuffer.mean_ms [Duration.mk 1 0] = 1000 ∧
    SampleBuffer.mean_ms [Duration.mk 1 0, Duration.mk 3 0] = 2000 :=
  mean_ms_spec [Duration.mk 1 0] (by simp)

/-- Embedding of `DebugCharacter` (debug.rs lines 71-82): glyph metrics of one
character of the bitmap font (the spec calls this GlyphInfo). -/
structure DebugCharacter where
  x : Int
  y : Int
  width : Int
  height : Int
  origin_x : Int
  origin_y : Int
  advance : Int
deriving DecidableEq

/-- Embedding of `DebugFont` (debug.rs lines 61-69).  The `HashMap<char,
DebugCharacter>` with unique keys is embedded as an association list. -/
structure DebugFont where
  name : String
  size : Int
  bold : Bool
  italic : Bool
  width : Nat
  height : Nat
  characters : List (Char × DebugCharacter)

/-- Lookup in the character map, the embedding of
`self.font.characters.get(&character)`. -/
def DebugFont.lookupChar (font : DebugFont) (character : Char) :
    Option DebugCharacter :=
  font.characters.lookup character

/-- Embedding of the glyph-resolution pattern shared by `DebugUI::draw_text`
(debug.rs lines 208-213) and `DebugUI::measure_text` (lines 252-257): if the
character is not in the map it is replaced by `'?'`, then the map is indexed
(a failing index is a panic, embedded as `none`). -/
def resolveGlyph (font : DebugFont) (character : Char) : Option DebugCharacter :=
  let character :=
    if (font.lookupChar character).isSome then character else '?'
  font.lookupChar character

/-- Glyph that resolution produces when the fallback `'?'` maps to `q`: the
direct lookup when the character is present, `q` otherwise. -/
def glyphOf (font : DebugFont) (q : DebugCharacter) (character : Char) :
    DebugCharacter :=
  (font.lookupChar character).getD q

theorem resolveGlyph_eq_glyphOf (font : DebugFont) (q : DebugCharacter)
    (hq : font.lookupChar '?' = some q) (c : Char) :
    resolveGlyph font c = some (glyphOf font q c) := by
  rw [resolveGlyph, glyphOf]
  cases h : font.lookupChar c with
  | none => simp [h, hq]
  | some g => simp [h]

namespace DebugUI

/-- Embedding of the loop body accumulator of `DebugUI::measure_text`
(debug.rs lines 250-261): `next` is the running advance sum. -/
def measureAux (font : DebugFont) : List Char → Int → Option Int
  | [], next => some next
  | c :: cs, next =>
    match resolveGlyph font c with
    | none => none
    | some info => measureAux font cs (next + info.advance)

/-- Embedding of `DebugUI::measure_text` (debug.rs lines 250-261), the string
taken as its character sequence.  `none` embeds the panic on a character (after
`'?'` substitution) that is absent from the map. -/
def measure_text (font : DebugFont) (string : List Char) : Option Int :=
  measureAux font string 0

end DebugUI

/-- Advance sum of the resolved glyphs of a string, the spec-side meaning of
`measure_text`. -/
def advSum (font : DebugFont) (q : DebugCharacter) (string : List Char) : Int :=
  (string.map (fun c => (glyphOf font q c).advance)).sum

theorem measureAux_eq_advSum (font : DebugFont) (q : DebugCharacter)
    (hq : font.lookupChar '?' = some q) (string : List Char) : ∀ next : Int,
    DebugUI.measureAux font string next = some (next + advSum font q string) := by
  induction string with
  | nil => intro next; simp [DebugUI.measureAux, advSum]
  | cons c cs ih =>
    intro next
    rw [DebugUI.measureAux, resolveGlyph_eq_glyphOf font q hq c]
    simp only [ih, advSum, List.map_cons, List.sum_cons]
    rw [add_assoc]

theorem measureAux_shift (font : DebugFont) (string : List Char) : ∀ next : Int,
    DebugUI.measureAux font string next =
      (DebugUI.measureAux font string 0).map (fun v => next + v) := by
  induction string with
  | nil => intro next; simp [DebugUI.measureAux]
  | cons c cs ih =>
    intro next
    rw [DebugUI.measureAux, DebugUI.measureAux]
    cases resolveGlyph font c with
    | none => simp
    | some info =>
      simp only [ih (next + info.advance), ih (0 + info.advance),
        Option.map_map]
      cases DebugUI.measureAux font cs 0 with
      | none => simp
      | some v => simp [Function.comp]

theorem measureAux_append (font : DebugFont) (s : List Char) :
    ∀ (t : List Char) (next : Int),
    DebugUI.measureAux font (s ++ t) next =
      (DebugUI.measureAux font s next).bind (fun a => DebugUI.measureAux font t a) := by
  induction s with
  | nil => intro t next; simp [DebugUI.measureAux]
  | cons c cs ih =>
    intro t next
    simp only [List.cons_append, DebugUI.measureAux]
    cases resolveGlyph font c with
    | none => simp
    | some info => simp [ih]

/-- C3: when the fallback `'?'` is present in the font, `measure_text` of any
string is the sum of the `advance` fields of the glyphs resolved for its
characters (absent characters substituted by `'?'`), and `measure_text` of the
empty string is `0`. -/
theorem measure_text_eq_advance_sum (font : DebugFont) (q : DebugCharacter)
    (hq : font.lookupChar '?' = some q) (s : List Char) :
    DebugUI.measure_text font [] = some 0 ∧
    DebugUI.measure_text font s =
      some ((s.map (fun c => (glyphOf font q c).advance)).sum) := by
  refine ⟨rfl, ?_⟩
  rw [DebugUI.measure_text, measureAux_eq_advSum font q hq s 0]
  simp [advSum]

/-- Modelled from the spec: `Point2DI32` of the `pathfinder_geometry` crate is
not under src/; the spec uses plain integer points with `x` / `y` accessors. -/
structure Point2DI32 where
  x : Int
  y : Int
deriving DecidableEq

/-- Modelled from the spec: `RectI32` of the `pathfinder_geometry` crate is
not under src/; per the spec a rect is an origin plus a size, with corners
origin, upper-right, lower-right, lower-left. -/
structure RectI32 where
  origin : Point2DI32
  size : Point2DI32
deriving DecidableEq

/-- Modelled from the spec: the upper-right corner, origin plus width. -/
def RectI32.upper_right (rect : RectI32) : Point2DI32 :=
  ⟨rect.origin.x + rect.size.x, rect.origin.y⟩

/-- Modelled from the spec: the lower-right corner, origin plus width and
height. -/
def RectI32.lower_right (rect : RectI32) : Point2DI32 :=
  ⟨rect.origin.x + rect.size.x, rect.origin.y + rect.size.y⟩

/-- Modelled from the spec: the lower-left corner, origin plus height. -/
def RectI32.lower_left (rect : RectI32) : Point2DI32 :=
  ⟨rect.origin.x, rect.origin.y + rect.size.y⟩

/-- Embedding of `static QUAD_INDICES: [u32; 6] = [0, 1, 3, 1, 2, 3]`
(debug.rs line 57), the `u32` entries as `Nat`. -/
def QUAD_INDICES : List Nat := [0, 1, 3, 1, 2, 3]

/-- Two's-complement truncation of an `i32` value to `i16`, the semantics of
the Rust `as i16` cast. -/
def i32_as_i16 (n : Int) : Int := (n + 32768) % 65536 - 32768

/-- Truncation of an `i32` value to `u16` (low 16 bits), the semantics of the
Rust `as u16` cast. -/
def i32_as_u16 (n : Int) : Int := n % 65536

/-- Embedding of `DebugTextureVertex` (debug.rs lines 428-433): positions are
`i16`, texture coordinates `u16`; the stored values are kept as `Int`. -/
structure DebugTextureVertex where
  position_x : Int
  position_y : Int
  tex_coord_x : Int
  tex_coord_y : Int
deriving DecidableEq

/-- Embedding of `DebugTextureVertex::new` (debug.rs lines 435-444) with its
narrowing casts. -/
def DebugTextureVertex.new (position tex_coord : Point2DI32) :
    DebugTextureVertex :=
  ⟨i32_as_i16 position.x, i32_as_i16 position.y,
   i32_as_u16 tex_coord.x, i32_as_u16 tex_coord.y⟩

/-- Embedding of `DebugSolidVertex` (debug.rs lines 448-451). -/
structure DebugSolidVertex where
  position_x : Int
  position_y : Int
deriving DecidableEq

/-- Embedding of `DebugSolidVertex::new` (debug.rs lines 453-456). -/
def DebugSolidVertex.new (position : Point2DI32) : DebugSolidVertex :=
  ⟨i32_as_i16 position.x, i32_as_i16 position.y⟩

/-- State threaded by the glyph loop of `DebugUI::draw_text` (debug.rs lines
203-230): the cursor `next` plus the accumulated vertex and index vectors. -/
structure LayoutState where
  next : Point2DI32
  vertex_data : List DebugTextureVertex
  index_data : List Nat
deriving DecidableEq

namespace DebugUI

/-- Embedding of one iteration of the glyph loop of `DebugUI::draw_text`
(debug.rs lines 208-229): resolve the glyph, build the position and texture
rects, emit the four corner vertices and the six offset quad indices, advance
the cursor. -/
def layoutChar (font : DebugFont) (st : LayoutState) (character : Char) :
    Option LayoutState :=
  match resolveGlyph font character with
  | none => none
  | some info =>
    let position_rect : RectI32 :=
      ⟨⟨st.next.x - info.origin_x, st.next.y - info.origin_y⟩,
       ⟨info.width, info.height⟩⟩
    let tex_coord_rect : RectI32 :=
      ⟨⟨info.x, info.y⟩, ⟨info.width, info.height⟩⟩
    let first_vertex_index := st.vertex_data.length
    some ⟨⟨st.next.x + info.advance, st.next.y⟩,
      st.vertex_data ++
        [DebugTextureVertex.new position_rect.origin tex_coord_rect.origin,
         DebugTextureVertex.new position_rect.upper_right
           tex_coord_rect.upper_right,
         DebugTextureVertex.new position_rect.lower_right
           tex_coord_rect.lower_right,
         DebugTextureVertex.new position_rect.lower_left
           tex_coord_rect.lower_left],
      st.index_data ++ QUAD_INDICES.map (fun i => i + first_vertex_index)⟩

/-- The glyph loop of `DebugUI::draw_text` over a whole string. -/
def drawTextLoop (font : DebugFont) : List Char → LayoutState → Option LayoutState
  | [], st => some st
  | c :: cs, st =>
    match layoutChar font st c with
    | none => none
    | some st2 => drawTextLoop font cs st2

/-- Embedding of the layout pass of `DebugUI::draw_text` (debug.rs lines
203-230): the vertex and index data built for a string at an origin, and the
final cursor.  The draw-call submission at line 233 is out of scope.  `none`
embeds the panic on a character (after `'?'` substitution) absent from the
map. -/
def draw_text (font : DebugFont) (string : List Char) (origin : Point2DI32) :
    Option LayoutState :=
  drawTextLoop font string ⟨origin, [], []⟩

end DebugUI

/-- Four corner vertices of the quad the glyph loop emits for one glyph whose
cursor is at `(cx, cy)`: the screen rect has top-left
`(cx - origin_x, cy - origin_y)` and size `(width, height)`, the texture rect
top-left `(x, y)` and the same size; corners in the order origin, upper-right,
lower-right, lower-left. -/
def quadVertices (info : DebugCharacter) (cx cy : Int) :
    List DebugTextureVertex :=
  let position_rect : RectI32 :=
    ⟨⟨cx - info.origin_x, cy - info.origin_y⟩, ⟨info.width, info.height⟩⟩
  let tex_coord_rect : RectI32 :=
    ⟨⟨info.x, info.y⟩, ⟨info.width, info.height⟩⟩
  [DebugTextureVertex.new position_rect.origin tex_coord_rect.origin,
   DebugTextureVertex.new position_rect.upper_right tex_coord_rect.upper_right,
   DebugTextureVertex.new position_rect.lower_right tex_coord_rect.lower_right,
   DebugTextureVertex.new position_rect.lower_left tex_coord_rect.lower_left]

/-- Vertex data of the glyph loop in closed form: one quad per character, the
cursor moving by each advance. -/
def vertsOf (font : DebugFont) (q : DebugCharacter) :
    List Char → Int → Int → List DebugTextureVertex
  | [], _, _ => []
  | c :: cs, cx, cy =>
    quadVertices (glyphOf font q c) cx cy ++
      vertsOf font q cs (cx + (glyphOf font q c).advance) cy

/-- Index data of the glyph loop in closed form: `n` copies of
`QUAD_INDICES`, the offset growing by 4 per quad. -/
def quadIdxs : Nat → Nat → List Nat
  | 0, _ => []
  | n + 1, base => QUAD_INDICES.map (fun i => i + base) ++ quadIdxs n (base + 4)

theorem drawTextLoop_eq (font : DebugFont) (q : DebugCharacter)
    (hq : font.lookupChar '?' = some q) (s : List Char) :
    ∀ (cx cy : Int) (V : List DebugTextureVertex) (I : List Nat),
    DebugUI.drawTextLoop font s ⟨⟨cx, cy⟩, V, I⟩ =
      some ⟨⟨cx + advSum font q s, cy⟩, V ++ vertsOf font q s cx cy,
        I ++ quadIdxs s.length V.length⟩ := by
  induction s with
  | nil =>
    intro cx cy V I
    simp [DebugUI.drawTextLoop, advSum, vertsOf, quadIdxs]
  | cons c cs ih =>
    intro cx cy V I
    have hres := resolveGlyph_eq_glyphOf font q hq c
    simp only [DebugUI.drawTextLoop, DebugUI.layoutChar, hres]
    rw [ih]
    simp only [List.length_append, List.length_cons, List.length_nil,
      advSum, vertsOf, quadIdxs, List.length, List.map_cons, List.sum_cons,
      quadVertices, List.append_assoc]
    refine congrArg some ?_
    have hv : V.length + 4 = V.length + (0 + 1 + 1 + 1 + 1) := by omega
    simp [advSum, add_assoc, hv]

theorem vertsOf_length (font : DebugFont) (q : DebugCharacter) :
    ∀ (s : List Char) (cx cy : Int),
    (vertsOf font q s cx cy).length = 4 * s.length := by
  intro s
  induction s with
  | nil => intro cx cy; simp [vertsOf]
  | cons c cs ih =>
    intro cx cy
    rw [vertsOf, List.length_append, ih]
    have hq4 : (quadVertices (glyphOf font q c) cx cy).length = 4 := by
      simp [quadVertices]
    rw [hq4, List.length_cons]
    omega

theorem quadIdxs_length : ∀ n base : Nat, (quadIdxs n base).length = 6 * n := by
  intro n
  induction n with
  | zero => intro base; simp [quadIdxs]
  | succ m ih =>
    intro base
    simp only [quadIdxs, List.length_append, List.length_map, ih, QUAD_INDICES,
      List.length_cons, List.length_nil]
    omega

theorem quadIdxs_slice : ∀ (n base i : Nat), i < n →
    ((quadIdxs n base).drop (6 * i)).take 6 =
      QUAD_INDICES.map (fun e => e + (base + 4 * i)) := by
  intro n
  induction n with
  | zero => intro base i hi; omega
  | succ m ih =>
    intro base i hi
    cases i with
    | zero =>
      simp only [quadIdxs, Nat.mul_zero, List.drop_zero, Nat.add_zero,
        Nat.mul_zero]
      rw [List.take_left' (by simp [QUAD_INDICES])]
    | succ j =>
      have h6 : 6 * (j + 1) = 6 + 6 * j := by omega
      have hchunk : (QUAD_INDICES.map (fun i => i + base)).length = 6 := by
        simp [QUAD_INDICES]
      rw [quadIdxs, h6, ← List.drop_drop, List.drop_left' hchunk,
        ih (base + 4) j (by omega)]
      have hb : base + 4 + 4 * j = base + 4 * (j + 1) := by omega
      simp [hb]

theorem quadIdxs_mem_lt : ∀ (n base : Nat), ∀ j ∈ quadIdxs n base,
    j < base + 4 * n := by
  intro n
  induction n with
  | zero => intro base j hj; simp [quadIdxs] at hj
  | succ m ih =>
    intro base j hj
    rw [quadIdxs, List.mem_append] at hj
    rcases hj with hj | hj
    · rw [List.mem_map] at hj
      obtain ⟨e, he, rfl⟩ := hj
      have he4 : e < 4 := by
        simp only [QUAD_INDICES, List.mem_cons, List.not_mem_nil, or_false] at he
        rcases he with rfl | rfl | rfl | rfl | rfl | rfl <;> omega
      omega
    · have := ih (base + 4) j hj
      omega

theorem vertsOf_slice (font : DebugFont) (q : DebugCharacter) :
    ∀ (s : List Char) (cx cy : Int) (i : Nat) (hi : i < s.length),
    ((vertsOf font q s cx cy).drop (4 * i)).take 4 =
      quadVertices (glyphOf font q (s.get ⟨i, hi⟩))
        (cx + advSum font q (s.take i)) cy := by
  intro s
  induction s with
  | nil =>
    intro cx cy i hi
    exact absurd hi (by simp)
  | cons c cs ih =>
    intro cx cy i hi
    have hquad4 : (quadVertices (glyphOf font q c) cx cy).length = 4 := by
      simp [quadVertices]
    cases i with
    | zero =>
      rw [vertsOf]
      simp only [Nat.mul_zero, List.drop_zero]
      rw [List.take_left' hquad4]
      simp [advSum]
    | succ j =>
      rw [vertsOf]
      have h4 : 4 * (j + 1) = 4 + 4 * j := by omega
      rw [h4, ← List.drop_drop, List.drop_left' hquad4]
      rw [ih (cx + (glyphOf font q c).advance) cy j (by simpa using hi)]
      simp [advSum, add_assoc]

/-- C4: when the fallback `'?'` is present in the font, the layout pass of
`draw_text` on any string emits exactly `4 * len` vertices and `6 * len`
indices, the six indices of quad `i` being `QUAD_INDICES` offset by `4 * i`,
and every index references an emitted vertex. -/
theorem draw_text_quads (font : DebugFont) (q : DebugCharacter)
    (hq : font.lookupChar '?' = some q) (s : List Char) (origin : Point2DI32) :
    ∃ st : LayoutState,
      DebugUI.draw_text font s origin = some st ∧
      st.vertex_data.length = 4 * s.length ∧
      st.index_data.length = 6 * s.length ∧
      (∀ i : Nat, i < s.length →
        (st.index_data.drop (6 * i)).take 6 =
          QUAD_INDICES.map (fun e => e + 4 * i)) ∧
      ∀ j ∈ st.index_data, j < st.vertex_data.length := by
  obtain ⟨ox, oy⟩ := origin
  have hloop := drawTextLoop_eq font q hq s ox oy [] []
  simp only [List.nil_append, List.length_nil] at hloop
  refine ⟨_, hloop, vertsOf_length font q s ox oy, quadIdxs_length s.length 0,
    ?_, ?_⟩
  · intro i hi
    rw [quadIdxs_slice s.length 0 i hi]
    simp
  · intro j hj
    have hlt := quadIdxs_mem_lt s.length 0 j hj
    rw [vertsOf_length]
    omega

/-- Glyph metrics used for the fallback character in the concrete test
font. -/
def infoQ : DebugCharacter := ⟨2, 3, 8, 16, 1, 16, 10⟩

/-- Glyph metrics of the C5 scenario:
`{x:0, y:0, w:10, h:20, originX:0, originY:20, advance:12}`. -/
def infoA : DebugCharacter := ⟨0, 0, 10, 20, 0, 20, 12⟩

/-- Concrete test font mapping `'A'` to the scenario metrics and `'?'` to the
fallback metrics. -/
def fontA : DebugFont :=
  ⟨"debug-font", 32, false, false, 128, 128, [('A', infoA), ('?', infoQ)]⟩

/-- Witness for C4 at the concrete font `fontA`, string `"A"` and origin
`(5, 7)`. -/
theorem draw_text_quads_witness :
    fontA.lookupChar '?' = some infoQ ∧
    (∃ st : LayoutState,
      DebugUI.draw_text fontA ['A'] ⟨5, 7⟩ = some st ∧
      st.vertex_data.length = 4 * (['A'] : List Char).length ∧
      st.index_data.length = 6 * (['A'] : List Char).length ∧
      (∀ i : Nat, i < (['A'] : List Char).length →
        (st.index_data.drop (6 * i)).take 6 =
          QUAD_INDICES.map (fun e => e + 4 * i)) ∧
      ∀ j ∈ st.index_data, j < st.vertex_data.length) :=
  ⟨by decide, draw_text_quads fontA infoQ (by decide) ['A'] ⟨5, 7⟩⟩

/-- C5: when the fallback `'?'` is present, the layout pass leaves the cursor
y unchanged, moves the cursor x by the total advance, and the four vertices of
quad `i` are the corners of the screen rect with top-left
`(cursor.x - originX, cursor.y - originY)` and size `(width, height)`, the
cursor x before glyph `i` being the origin x plus the advances of the glyphs
before it; concretely, laying out `"A"` with metrics
`{x:0, y:0, w:10, h:20, originX:0, originY:20, advance:12}` at `(0, 0)` gives
the screen rect with top-left `(0, -20)` and size `(10, 20)` and end cursor
x `12`. -/
theorem draw_text_glyph_geometry (font : DebugFont) (q : DebugCharacter)
    (hq : font.lookupChar '?' = some q) (s : List Char) (origin : Point2DI32) :
    (∃ st : LayoutState,
      DebugUI.draw_text font s origin = some st ∧
      st.next.y = origin.y ∧
      st.next.x = origin.x + advSum font q s ∧
      ∀ (i : Nat) (hi : i < s.length),
        (st.vertex_data.drop (4 * i)).take 4 =
          quadVertices (glyphOf font q (s.get ⟨i, hi⟩))
            (origin.x + advSum font q (s.take i)) origin.y) ∧
    DebugUI.draw_text fontA ['A'] ⟨0, 0⟩ =
      some ⟨⟨12, 0⟩,
        [⟨0, -20, 0, 0⟩, ⟨10, -20, 10, 0⟩, ⟨10, 0, 10, 20⟩, ⟨0, 0, 0, 20⟩],
        [0, 1, 3, 1, 2, 3]⟩ := by
  constructor
  · obtain ⟨ox, oy⟩ := origin
    have hloop := drawTextLoop_eq font q hq s ox oy [] []
    simp only [List.nil_append, List.length_nil] at hloop
    exact ⟨_, hloop, rfl, rfl, fun i hi => vertsOf_slice font q s ox oy i hi⟩
  · decide

/-- Witness for C5 at the concrete font `fontA`, string `"A"` and origin
`(0, 0)`. -/
theorem draw_text_glyph_geometry_witness :
    fontA.lookupChar '?' = some infoQ ∧
    ((∃ st : LayoutState,
      DebugUI.draw_text fontA ['A'] ⟨0, 0⟩ = some st ∧
      st.next.y = (⟨0, 0⟩ : Point2DI32).y ∧
      st.next.x = (⟨0, 0⟩ : Point2DI32).x + advSum fontA infoQ ['A'] ∧
      ∀ (i : Nat) (hi : i < (['A'] : List Char).length),
        (st.vertex_data.drop (4 * i)).take 4 =
          quadVertices (glyphOf fontA infoQ ((['A'] : List Char).get ⟨i, hi⟩))
            ((⟨0, 0⟩ : Point2DI32).x + advSum fontA infoQ ((['A'] : List Char).take i))
            (⟨0, 0⟩ : Point2DI32).y) ∧
    DebugUI.draw_text fontA ['A'] ⟨0, 0⟩ =
      some ⟨⟨12, 0⟩,
        [⟨0, -20, 0, 0⟩, ⟨10, -20, 10, 0⟩, ⟨10, 0, 10, 20⟩, ⟨0, 0, 0, 20⟩],
        [0, 1, 3, 1, 2, 3]⟩) :=
  ⟨by decide, draw_text_glyph_geometry fontA infoQ (by decide) ['A'] ⟨0, 0⟩⟩

/-- C6: a character absent from the font map resolves to exactly the glyph of
an explicit `'?'` lookup; when `'?'` is present, resolution never fails, and
`measure_text` and the layout pass of `draw_text` treat the absent character
exactly like `'?'`. -/
theorem resolveGlyph_question_fallback (font : DebugFont) (c : Char)
    (q : DebugCharacter) (hc : font.lookupChar c = none)
    (hq : font.lookupChar '?' = some q) :
    resolveGlyph font c = some q ∧
    resolveGlyph font c = resolveGlyph font '?' ∧
    (∀ d : Char, (resolveGlyph font d).isSome) ∧
    DebugUI.measure_text font [c] = DebugUI.measure_text font ['?'] ∧
    ∀ origin : Point2DI32,
      DebugUI.draw_text font [c] origin = DebugUI.draw_text font ['?'] origin := by
  have hrc : resolveGlyph font c = some q := by
    rw [resolveGlyph]
    simp [hc, hq]
  have hrq : resolveGlyph font '?' = some q := by
    rw [resolveGlyph]
    simp [hq]
  refine ⟨hrc, hrc.trans hrq.symm, ?_, ?_, ?_⟩
  · intro d
    rw [resolveGlyph]
    cases hd : font.lookupChar d with
    | none => simp [hd, hq]
    | some g => simp [hd]
  · simp [DebugUI.measure_text, DebugUI.measureAux, hrc, hrq]
  · intro origin
    simp [DebugUI.draw_text, DebugUI.drawTextLoop, DebugUI.layoutChar, hrc, hrq]

/-- Witness for C6: the euro sign is absent from `fontA` and resolves exactly
like `'?'`. -/
theorem resolveGlyph_question_fallback_witness :
    fontA.lookupChar '€' = none ∧ fontA.lookupChar '?' = some infoQ ∧
    (resolveGlyph fontA '€' = some infoQ ∧
     resolveGlyph fontA '€' = resolveGlyph fontA '?' ∧
     (∀ d : Char, (resolveGlyph fontA d).isSome) ∧
     DebugUI.measure_text fontA ['€'] = DebugUI.measure_text fontA ['?'] ∧
     ∀ origin : Point2DI32,
       DebugUI.draw_text fontA ['€'] origin = DebugUI.draw_text fontA ['?'] origin) :=
  ⟨by decide, by decide,
   resolveGlyph_question_fallback fontA '€' infoQ (by decide) (by decide)⟩

/-- Modelled from the spec: `ColorU` of the renderer paint module is not under
src/; per the spec it is four 8-bit channels `(r, g, b, a)`. -/
structure ColorU where
  r : Nat
  g : Nat
  b : Nat
  a : Nat
deriving DecidableEq

namespace DebugUI

/-- Embedding of the vertex batching of `DebugUI::draw_rect` (debug.rs lines
173-179): the four corner vertices in the order origin, upper-right,
lower-right, lower-left.  The `filled` flag and the color only affect the GL
submission (triangles with `QUAD_INDICES` versus a four-vertex line loop, and
a color uniform), not the emitted vertex data. -/
def draw_rect (rect : RectI32) (color : ColorU) (filled : Bool) :
    List DebugSolidVertex :=
  [DebugSolidVertex.new rect.origin,
   DebugSolidVertex.new rect.upper_right,
   DebugSolidVertex.new rect.lower_right,
   DebugSolidVertex.new rect.lower_left]

/-- Embedding of `DebugUI::draw_solid_rect` (debug.rs lines 165-167). -/
def draw_solid_rect (rect : RectI32) (color : ColorU) : List DebugSolidVertex :=
  draw_rect rect color true

/-- Embedding of `DebugUI::draw_rect_outline` (debug.rs lines 169-171). -/
def draw_rect_outline (rect : RectI32) (color : ColorU) : List DebugSolidVertex :=
  draw_rect rect color false

end DebugUI

/-- C7: for every non-degenerate rect and every color, both the filled and the
outline batching emit the four corners in the order origin, upper-right,
lower-right, lower-left. -/
theorem draw_rect_winding (x y w h : Int) (color : ColorU)
    (hw : 0 < w) (hh : 0 < h) :
    DebugUI.draw_solid_rect ⟨⟨x, y⟩, ⟨w, h⟩⟩ color =
      [DebugSolidVertex.new ⟨x, y⟩, DebugSolidVertex.new ⟨x + w, y⟩,
       DebugSolidVertex.new ⟨x + w, y + h⟩, DebugSolidVertex.new ⟨x, y + h⟩] ∧
    DebugUI.draw_rect_outline ⟨⟨x, y⟩, ⟨w, h⟩⟩ color =
      [DebugSolidVertex.new ⟨x, y⟩, DebugSolidVertex.new ⟨x + w, y⟩,
       DebugSolidVertex.new ⟨x + w, y + h⟩, DebugSolidVertex.new ⟨x, y + h⟩] :=
  ⟨rfl, rfl⟩

/-- Witness for C7 at a concrete rect and color. -/
theorem draw_rect_winding_witness :
    DebugUI.draw_solid_rect ⟨⟨1, 2⟩, ⟨3, 4⟩⟩ ⟨255, 255, 255, 255⟩ =
      [DebugSolidVertex.new ⟨1, 2⟩, DebugSolidVertex.new ⟨1 + 3, 2⟩,
       DebugSolidVertex.new ⟨1 + 3, 2 + 4⟩, DebugSolidVertex.new ⟨1, 2 + 4⟩] ∧
    DebugUI.draw_rect_outline ⟨⟨1, 2⟩, ⟨3, 4⟩⟩ ⟨255, 255, 255, 255⟩ =
      [DebugSolidVertex.new ⟨1, 2⟩, DebugSolidVertex.new ⟨1 + 3, 2⟩,
       DebugSolidVertex.new ⟨1 + 3, 2 + 4⟩, DebugSolidVertex.new ⟨1, 2 + 4⟩] :=
  draw_rect_winding 1 2 3 4 ⟨255, 255, 255, 255⟩ (by decide) (by decide)

/-- Embedding of the state of `DebugUI` (debug.rs lines 90-102) touched by the
pure operations: the framebuffer size, the font and the two sample buffers
(the GL program, texture and vertex-array handles are out of scope). -/
structure DebugUIState where
  framebuffer_size : Nat × Nat
  font : DebugFont
  cpu_samples : List Duration
  gpu_samples : List Duration

/-- Embedding of `DebugUI::add_sample` (debug.rs lines 139-144): always push
the CPU sample; push the GPU sample only when present. -/
def DebugUI.add_sample (ui : DebugUIState) (tile_time : Duration)
    (rendering_time : Option Duration) : DebugUIState :=
  let ui2 := { ui with cpu_samples := SampleBuffer.push ui.cpu_samples tile_time }
  match rendering_time with
  | some t => { ui2 with gpu_samples := SampleBuffer.push ui2.gpu_samples t }
  | none => ui2

/-- C8: `add_sample` pushes the CPU time onto the CPU buffer; it pushes the
GPU time onto the GPU buffer exactly when one is given, leaving the GPU buffer
unchanged otherwise; the framebuffer size and the font are not modified. -/
theorem add_sample_effect (ui : DebugUIState) (tile_time : Duration)
    (rendering_time : Option Duration) :
    (DebugUI.add_sample ui tile_time rendering_time).cpu_samples =
      SampleBuffer.push ui.cpu_samples tile_time ∧
    (∀ t : Duration, rendering_time = some t →
      (DebugUI.add_sample ui tile_time rendering_time).gpu_samples =
        SampleBuffer.push ui.gpu_samples t) ∧
    (rendering_time = none →
      (DebugUI.add_sample ui tile_time rendering_time).gpu_samples =
        ui.gpu_samples) ∧
    (DebugUI.add_sample ui tile_time rendering_time).framebuffer_size =
      ui.framebuffer_size ∧
    (DebugUI.add_sample ui tile_time rendering_time).font = ui.font := by
  cases rendering_time with
  | none => simp [DebugUI.add_sample]
  | some t => simp [DebugUI.add_sample]

/-- Concrete overlay state for the C8 witness. -/
def uiEx : DebugUIState := ⟨(800, 600), fontA, [], []⟩

/-- Witness for C8 at a concrete state, with and without a GPU sample. -/
theorem add_sample_effect_witness :
    (DebugUI.add_sample uiEx (Duration.mk 0 5) (some (Duration.mk 0 9))).gpu_samples =
      SampleBuffer.push uiEx.gpu_samples (Duration.mk 0 9) ∧
    (DebugUI.add_sample uiEx (Duration.mk 0 5) none).gpu_samples =
      uiEx.gpu_samples ∧
    (DebugUI.add_sample uiEx (Duration.mk 0 5) (some (Duration.mk 0 9))).cpu_samples =
      SampleBuffer.push uiEx.cpu_samples (Duration.mk 0 5) :=
  ⟨(add_sample_effect uiEx (Duration.mk 0 5) (some (Duration.mk 0 9))).2.1
      (Duration.mk 0 9) rfl,
   (add_sample_effect uiEx (Duration.mk 0 5) none).2.2.1 rfl,
   (add_sample_effect uiEx (Duration.mk 0 5) (some (Duration.mk 0 9))).1⟩

/-- Counterexample for C9 as stated: the i32 coordinate 32768 does not fit an
`i16`, and `DebugSolidVertex::new` stores a different value for it (the cast
wraps to -32768). -/
theorem vertex_narrowing_counterexample :
    ¬ (DebugSolidVertex.new ⟨32768, 0⟩).position_x = 32768 := by decide

/-- C9 (amended): for every point whose position coordinates fit the signed
16-bit range and whose texture coordinates fit the unsigned 16-bit range, the
narrowing conversions of `DebugTextureVertex::new` and `DebugSolidVertex::new`
lose no information: the stored components equal the input coordinates. -/
theorem vertex_narrowing_lossless (px py u v : Int)
    (hx1 : -32768 ≤ px) (hx2 : px < 32768)
    (hy1 : -32768 ≤ py) (hy2 : py < 32768)
    (hu1 : 0 ≤ u) (hu2 : u < 65536)
    (hv1 : 0 ≤ v) (hv2 : v < 65536) :
    DebugTextureVertex.new ⟨px, py⟩ ⟨u, v⟩ = DebugTextureVertex.mk px py u v ∧
    DebugSolidVertex.new ⟨px, py⟩ = DebugSolidVertex.mk px py := by
  constructor
  · simp only [DebugTextureVertex.new, i32_as_i16, i32_as_u16,
      DebugTextureVertex.mk.injEq]
    exact ⟨by omega, by omega, by omega, by omega⟩
  · simp only [DebugSolidVertex.new, i32_as_i16, DebugSolidVertex.mk.injEq]
    exact ⟨by omega, by omega⟩

/-- Witness for the amended C9 at a concrete in-range point. -/
theorem vertex_narrowing_lossless_witness :
    DebugTextureVertex.new ⟨10, -20⟩ ⟨3, 4⟩ = DebugTextureVertex.mk 10 (-20) 3 4 ∧
    DebugSolidVertex.new ⟨10, -20⟩ = DebugSolidVertex.mk 10 (-20) :=
  vertex_narrowing_lossless 10 (-20) 3 4 (by decide) (by decide) (by decide)
    (by decide) (by decide) (by decide) (by decide) (by decide)

/-- C10: `measure_text` is a monoid homomorphism from string concatenation to
integer addition (lifted to `Option` for the panic case): the measure of a
concatenation is the sum of the measures, and the empty string measures 0. -/
theorem measure_text_append_hom (font : DebugFont) (s t : List Char) :
    DebugUI.measure_text font (s ++ t) =
      Option.map₂ (· + ·) (DebugUI.measure_text font s)
        (DebugUI.measure_text font t) ∧
    DebugUI.measure_text font [] = some 0 := by
  refine ⟨?_, rfl⟩
  rw [DebugUI.measure_text, measureAux_append font s t 0]
  cases hs : DebugUI.measureAux font s 0 with
  | none => simp [DebugUI.measure_text, Option.map₂, hs]
  | some a =>
    rw [DebugUI.measure_text]
    rw [hs]
    simp only [Option.some_bind]
    rw [measureAux_shift font t a, DebugUI.measure_text]
    cases DebugUI.measureAux font t 0 with
    | none => simp [Option.map₂]
    | some b => simp [Option.map₂]

/-- Witness for C3 at the concrete font `fontA` and the string `"A€"` (one
mapped character, one falling back to `'?'`). -/
theorem measure_text_eq_advance_sum_witness :
    fontA.lookupChar '?' = some infoQ ∧
    (DebugUI.measure_text fontA [] = some 0 ∧
     DebugUI.measure_text fontA ['A', '€'] =
       some (((['A', '€'] : List Char).map
         (fun c => (glyphOf fontA infoQ c).advance)).sum)) :=
  ⟨by decide, measure_text_eq_advance_sum fontA infoQ (by decide) ['A', '€']⟩
